import Mathlib

/-!
Shallow embedding of the QR-detection / OCR contact-extraction frontend service
(`QRDetectionService` and `extractTextInfoEnhanced`).  JavaScript strings are
modelled as `String` / `List Char`; regular expressions are transcribed as
explicit matching functions that follow the JS engine's leftmost-match,
greedy-with-backtracking semantics; `Uint8ClampedArray` stores are modelled
with exact integer arithmetic (round half to even on store, `Math.round` as
round half up).
-/

/-! ### Character classes (JS regex classes, ASCII-exact) -/

/-- JS `\d`: the ASCII digits. -/
def isDigitChar (c : Char) : Bool := '0' ≤ c && c ≤ '9'

/-- JS `[A-Z]` (without the `i` flag). -/
def isUpperAZ (c : Char) : Bool := 'A' ≤ c && c ≤ 'Z'

/-- JS `[a-z]` (without the `i` flag). -/
def isLowerAZ (c : Char) : Bool := 'a' ≤ c && c ≤ 'z'

/-- JS `[a-zA-Z]`. -/
def isAsciiLetter (c : Char) : Bool := isUpperAZ c || isLowerAZ c

/-- JS `\s`: the ECMAScript WhiteSpace and LineTerminator set. -/
def isJsSpace (c : Char) : Bool :=
  c.val = 9 || c.val = 10 || c.val = 11 || c.val = 12 || c.val = 13 ||
  c.val = 32 || c.val = 160 || c.val = 0x1680 ||
  (0x2000 ≤ c.val && c.val ≤ 0x200a) ||
  c.val = 0x2028 || c.val = 0x2029 || c.val = 0x202f || c.val = 0x205f ||
  c.val = 0x3000 || c.val = 0xfeff

/-- JS `\w`: word characters, used for the `\b` boundary. -/
def isWordChar (c : Char) : Bool := isAsciiLetter c || isDigitChar c || c = '_'

/-- ASCII lower-casing, as JS `toLowerCase` acts on ASCII letters. -/
def asciiLower (c : Char) : Char :=
  if isUpperAZ c then Char.ofNat (c.toNat + 32) else c

/-- ASCII upper-casing, as JS `toUpperCase` acts on ASCII letters. -/
def asciiUpper (c : Char) : Char :=
  if isLowerAZ c then Char.ofNat (c.toNat - 32) else c

/-! ### List-of-char string operations (JS `String` methods) -/

/-- JS `startsWith`, on char lists: `p` is a prefix of `l`. -/
def isPrefixList : List Char → List Char → Bool
  | [], _ => true
  | _ :: _, [] => false
  | p :: ps, c :: cs => p = c && isPrefixList ps cs

/-- JS `includes`: `pat` occurs as a contiguous segment of `l`. -/
def containsList (pat : List Char) : List Char → Bool
  | [] => isPrefixList pat []
  | c :: cs => isPrefixList pat (c :: cs) || containsList pat cs

/-- JS `split(c)` for a one-character separator (never returns `[]`). -/
def splitOnChar (sep : Char) : List Char → List (List Char)
  | [] => [[]]
  | x :: xs =>
    match splitOnChar sep xs with
    | [] => [[x]]
    | h :: t => if x = sep then [] :: h :: t else (x :: h) :: t

/-- JS `trim`: drop leading and trailing whitespace. -/
def trimList (l : List Char) : List Char :=
  ((l.dropWhile isJsSpace).reverse.dropWhile isJsSpace).reverse

/-- JS `replace(/\s+/g, ' ')`: collapse each whitespace run to one space.
`prev` records whether the previous character was whitespace. -/
def collapseWsGo : List Char → Bool → List Char
  | [], _ => []
  | c :: cs, prev =>
    if isJsSpace c then
      (if prev then collapseWsGo cs true else ' ' :: collapseWsGo cs true)
    else c :: collapseWsGo cs false

/-- The cleaning step `text.replace(/\s+/g, ' ').trim()`. -/
def cleanText (l : List Char) : List Char := trimList (collapseWsGo l false)

/-- String-level `startsWith`. -/
def strStartsWith (s pre : String) : Bool := isPrefixList pre.data s.data

/-- String-level `includes`. -/
def strContains (s pat : String) : Bool := containsList pat.data s.data

/-- Pack a char list back into a `String`. -/
def strOf (l : List Char) : String := ⟨l⟩

/-! ### `parseQRContent` and its helpers (content classifier) -/

/-- The classifier's result record (`ParsedQRData`); `details` is the JS
object, modelled as an insertion-ordered association list. -/
structure ParsedQRData where
  content_type : String
  title : String
  details : List (String × String)
  raw_data : String
deriving DecidableEq

/-- JS object property assignment `details[k] = v`: overwrite in place if the
key exists, append otherwise. -/
def setDetail (l : List (String × String)) (k v : String) : List (String × String) :=
  match l with
  | [] => [(k, v)]
  | (k0, v0) :: t => if k0 = k then (k, v) :: t else (k0, v0) :: setDetail t k v

/-- One iteration of `parseVCard`'s loop: handle one (already split) line. -/
def parseVCardLine (details : List (String × String)) (line : List Char) :
    List (String × String) :=
  let trimmed := trimList line
  if containsList [':'] trimmed then
    match splitOnChar ':' trimmed with
    | key :: value :: _ =>
      let upperKey := strOf (key.map asciiUpper)
      if upperKey = "FN" then setDetail details "name" (strOf value)
      else if upperKey = "ORG" then setDetail details "company" (strOf value)
      else if upperKey = "TITLE" then setDetail details "title" (strOf value)
      else if upperKey = "EMAIL" then setDetail details "email" (strOf value)
      else if upperKey = "TEL" then setDetail details "phone" (strOf value)
      else if upperKey = "URL" then setDetail details "website" (strOf value)
      else if upperKey = "ADR" then setDetail details "address" (strOf value)
      else details
    | _ => details
  else details

/-- `parseVCard`: split on newlines; lines of the form `KEY:value` with a
recognized key populate the corresponding detail field.  JS `split(':', 2)`
keeps the first two segments, which the `match` on `key :: value :: _` mirrors. -/
def parseVCard (vcardData : String) : List (String × String) :=
  (splitOnChar '\n' vcardData.data).foldl parseVCardLine []

/-- One iteration of `parseWiFi`'s loop over `;`-separated parts. -/
def parseWiFiPart (details : List (String × String)) (part : List Char) :
    List (String × String) :=
  if containsList [':'] part then
    match splitOnChar ':' part with
    | key :: value :: _ =>
      if key = ['S'] then setDetail details "ssid" (strOf value)
      else if key = ['P'] then setDetail details "password" (strOf value)
      else if key = ['T'] then setDetail details "security" (strOf value)
      else details
    | _ => details
  else details

/-- `parseWiFi`: drop the `WIFI:` prefix (`substring(5)`), split on `;`,
collect the `S`/`P`/`T` keyed parts. -/
def parseWiFi (wifiData : String) : List (String × String) :=
  (splitOnChar ';' (wifiData.data.drop 5)).foldl parseWiFiPart []

/-- `parseSMS`: split on `:`; with at least three segments the second and
third become phone and message, otherwise the raw string is kept. -/
def parseSMS (smsData : String) : List (String × String) :=
  if containsList [':'] smsData.data then
    match splitOnChar ':' smsData.data with
    | _ :: p :: m :: _ => [("phone", strOf p), ("message", strOf m)]
    | _ => [("raw", smsData)]
  else [("raw", smsData)]

/-- The character class `[\d\s\-\(\)]` of the phone rule. -/
def isPhoneClassChar (c : Char) : Bool :=
  isDigitChar c || isJsSpace c || c = '-' || c = '(' || c = ')'

/-- The test `/^\+?[\d\s\-\(\)]{10,}$/.test(qrData)`.  The optional leading
`+` is deterministic: `+` is not in the repeated class, so when the string
starts with `+` the only viable parse consumes it. -/
def phoneRegexTest (s : String) : Bool :=
  let t := if isPrefixList ['+'] s.data then s.data.drop 1 else s.data
  decide (10 ≤ t.length) && t.all isPhoneClassChar

/-- The closed list of social-domain substrings tried after LinkedIn. -/
def socialPlatforms : List String :=
  ["twitter.com", "facebook.com", "instagram.com", "youtube.com"]

/-- JS `platform.split('.')[0]`: the part before the first dot. -/
def firstLabel (p : String) : String := strOf (p.data.takeWhile (fun c => c ≠ '.'))

/-- `parseQRContent`: ordered first-match-wins classification of a decoded
payload string.  The rule order is exactly the source's: url, email, phone,
vcard, wifi, sms, linkedin, social, plain text.  The surrounding `try/catch`
(which would set `content_type` to `error`) has no failing operation in the
body, so the embedding is the plain rule chain. -/
def parseQRContent (qrData : String) : ParsedQRData :=
  if strStartsWith qrData "http://" || strStartsWith qrData "https://" ||
      strStartsWith qrData "www." then
    ⟨"url", "Website Link", [("url", qrData)], qrData⟩
  else if strContains qrData "@" && strContains qrData "." then
    ⟨"email", "Email Address", [("email", qrData)], qrData⟩
  else if phoneRegexTest qrData then
    ⟨"phone", "Phone Number", [("phone", qrData)], qrData⟩
  else if strStartsWith qrData "BEGIN:VCARD" then
    ⟨"vcard", "Business Card", parseVCard qrData, qrData⟩
  else if strStartsWith qrData "WIFI:" then
    ⟨"wifi", "WiFi Network", parseWiFi qrData, qrData⟩
  else if strStartsWith qrData "sms:" then
    ⟨"sms", "SMS Message", parseSMS qrData, qrData⟩
  else if strContains qrData "linkedin.com" then
    ⟨"linkedin", "LinkedIn Profile", [("url", qrData), ("platform", "LinkedIn")], qrData⟩
  else
    match socialPlatforms.find? (fun p => strContains qrData p) with
    | some platform =>
      ⟨"social", firstLabel platform ++ " Profile",
        [("url", qrData), ("platform", firstLabel platform)], qrData⟩
    | none => ⟨"text", "Text Content", [("text", qrData)], qrData⟩

/-! ### Image model and the preprocessing transforms -/

/-- One RGBA pixel; the source iterates the `ImageData` byte array in strides
of four, so a pixel-level model is exact. -/
structure Pixel where
  r : Nat
  g : Nat
  b : Nat
  a : Nat
deriving DecidableEq

/-- The browser `ImageData`: width, height and the pixel buffer. -/
structure ImageData where
  width : Nat
  height : Nat
  data : List Pixel
deriving DecidableEq

/-- `Math.round` for a non-negative quotient `num / den`: round half up. -/
def roundDiv (num den : Nat) : Nat := (2 * num + den) / (2 * den)

/-- `Uint8ClampedArray` store of the value `h / 2` (the argument is twice the
stored value, so that `(v - 128) * 1.5 + 128` stays in integers): clamp to
[0, 255] and round half to even, per the WebIDL clamped conversion. -/
def clampStoreHalf (h : Int) : Nat :=
  let c := max 0 (min 510 h)
  let q := (c / 2).toNat
  if c % 2 = 0 then q else if q % 2 = 0 then q else q + 1

/-- One channel of `increaseContrast`:
`Math.min(255, Math.max(0, (v - 128) * 1.5 + 128))` stored into a clamped
byte; `(v - 128) * 1.5 + 128 = (3v - 128) / 2` exactly. -/
def contrastByte (v : Nat) : Nat := clampStoreHalf (3 * (v : Int) - 128)

/-- `increaseContrast`: fixed-factor (1.5) per-channel contrast about the
midpoint 128; the alpha byte is copied through. -/
def increaseContrast (imageData : ImageData) : ImageData :=
  ⟨imageData.width, imageData.height,
    imageData.data.map (fun p => ⟨contrastByte p.r, contrastByte p.g, contrastByte p.b, p.a⟩)⟩

/-- The luminance `Math.round(0.299 r + 0.587 g + 0.114 b)`. -/
def grayOf (p : Pixel) : Nat := roundDiv (299 * p.r + 587 * p.g + 114 * p.b) 1000

/-- `convertToGrayscale`: set each RGB channel to the luminance, copy alpha. -/
def convertToGrayscale (imageData : ImageData) : ImageData :=
  ⟨imageData.width, imageData.height,
    imageData.data.map (fun p => ⟨grayOf p, grayOf p, grayOf p, p.a⟩)⟩

/-- The threshold of `applyThreshold`: `Math.round(sum / total)` where `sum`
adds `i * histogram[i]` and `total` the histogram counts; for byte-valued
pixels this equals the sum of the luminances over the pixel count. -/
def thresholdOf (imageData : ImageData) : Nat :=
  roundDiv (imageData.data.map grayOf).sum imageData.data.length

/-- `applyThreshold`: binarize each pixel's RGB to 0/255 against the mean
luminance threshold, copying alpha. -/
def applyThreshold (imageData : ImageData) : ImageData :=
  let threshold := thresholdOf imageData
  ⟨imageData.width, imageData.height,
    imageData.data.map (fun p =>
      let v := if threshold < grayOf p then 255 else 0
      ⟨v, v, v, p.a⟩)⟩

/-- Pixel fetch `data[(y * width + x) * 4 ..]` with the typed array's zero
default. -/
def getPixel (imageData : ImageData) (x y : Nat) : Pixel :=
  imageData.data.getD (y * imageData.width + x) ⟨0, 0, 0, 0⟩

/-- `resizeImage(imageData, 0.5)`: `Math.round(w * 0.5)` dimensions and
nearest-neighbour fetch `Math.floor(x / 0.5) = 2x`. -/
def resizeHalf (imageData : ImageData) : ImageData :=
  let newWidth := roundDiv imageData.width 2
  let newHeight := roundDiv imageData.height 2
  ⟨newWidth, newHeight,
    (List.range newHeight).flatMap (fun y =>
      (List.range newWidth).map (fun x => getPixel imageData (2 * x) (2 * y)))⟩

/-- `preprocessImage`: the fixed order of the four preprocessed renderings. -/
def preprocessImage (imageData : ImageData) : List ImageData :=
  [increaseContrast imageData,
   increaseContrast (convertToGrayscale imageData),
   applyThreshold imageData,
   resizeHalf imageData]

/-! ### Decode results, deduplication, and the detection cascade -/

/-- A decode result (`QRCodeResult`); the corner geometry is dropped because
none of the verified operations reads it. -/
structure QRCodeResult where
  data : String
  typ : String
  method : String
deriving DecidableEq

/-- `removeDuplicates`'s filter with the mutable `seen` set made explicit:
an entry is kept exactly when its `data` was not seen before, and only kept
entries are added to `seen`. -/
def removeDuplicatesAux (seen : List String) : List QRCodeResult → List QRCodeResult
  | [] => []
  | r :: rs =>
    if seen.contains r.data then removeDuplicatesAux seen rs
    else r :: removeDuplicatesAux (r.data :: seen) rs

/-- `removeDuplicates`: keep the first occurrence of each `data` string. -/
def removeDuplicates (results : List QRCodeResult) : List QRCodeResult :=
  removeDuplicatesAux [] results

/-- The two decoder collaborators, supplied as oracles: `jsQR` (local,
at most one code) and the goQR.me backend proxy (remote, a list; failures
are already absorbed to `[]`, see `detectWithGoQRAPI`). -/
structure Decoders where
  jsQR : ImageData → Option QRCodeResult
  goQR : ImageData → List QRCodeResult

/-- Decoder-invocation events recorded by the embedding of `detectQRCodes`,
tagged with the preprocessing level (`localPre i` / `remotePre i` are the
calls on the `i`-th preprocessed image). -/
inductive DetectEv where
  | localOrig : DetectEv
  | remoteOrig : DetectEv
  | localPre : Nat → DetectEv
  | remotePre : Nat → DetectEv
deriving DecidableEq

/-- The Tier-1 loop of `detectQRCodes` over the preprocessed images, also
returning the invocation trace: at each level jsQR is tried first; on a jsQR
hit the loop breaks before calling the remote decoder; on a remote hit the
loop breaks; otherwise it moves to the next level. -/
def tier1Loop (d : Decoders) : List ImageData → Nat → List QRCodeResult × List DetectEv
  | [], _ => ([], [])
  | p :: ps, i =>
    match d.jsQR p with
    | some r => ([r], [DetectEv.localPre i])
    | none =>
      let g := d.goQR p
      if g = [] then
        let rest := tier1Loop d ps (i + 1)
        (rest.1, DetectEv.localPre i :: DetectEv.remotePre i :: rest.2)
      else (g, [DetectEv.localPre i, DetectEv.remotePre i])

/-- Result of one detection run: the returned results plus the recorded
decoder-invocation trace. -/
structure DetectOut where
  results : List QRCodeResult
  trace : List DetectEv
deriving DecidableEq

/-- `detectQRCodes`: Tier 0 runs jsQR on the original image; if it found
nothing, Tier 1 runs `tier1Loop` over the preprocessed images; if still
nothing, Tier 2 calls the remote decoder on the original image and, when it
returns codes, RETURNS THEM EARLY without deduplication (the source's
`return results` inside the Tier-2 branch).  All other paths end in
`removeDuplicates`; the ZXing step is a stub returning `[]` in the source. -/
def detectQRCodes (d : Decoders) (imageData : ImageData) : DetectOut :=
  if (d.jsQR imageData).toList = [] then
    if (tier1Loop d (preprocessImage imageData) 0).1 = [] then
      if d.goQR imageData = [] then
        ⟨removeDuplicates [],
          DetectEv.localOrig :: (tier1Loop d (preprocessImage imageData) 0).2 ++
            [DetectEv.remoteOrig]⟩
      else
        ⟨d.goQR imageData,
          DetectEv.localOrig :: (tier1Loop d (preprocessImage imageData) 0).2 ++
            [DetectEv.remoteOrig]⟩
    else
      ⟨removeDuplicates (tier1Loop d (preprocessImage imageData) 0).1,
        DetectEv.localOrig :: (tier1Loop d (preprocessImage imageData) 0).2⟩
  else ⟨removeDuplicates (d.jsQR imageData).toList, [DetectEv.localOrig]⟩

/-! ### The remote decoder wrapper `detectWithGoQRAPI` -/

/-- The body obtained from `response.json()`: either the parse throws
(malformed) or it yields the `{success, qr_codes}` record. -/
inductive GoQRBody where
  | malformed : GoQRBody
  | parsed : Bool → List QRCodeResult → GoQRBody
deriving DecidableEq

/-- Outcome of the `fetch` to the backend proxy: a rejected promise
(network error / timeout / abort) or a response with a status and body. -/
inductive FetchOutcome where
  | networkError : FetchOutcome
  | response : Nat → GoQRBody → FetchOutcome
deriving DecidableEq

/-- `Response.ok`: status in the 2xx range. -/
def responseOk (status : Nat) : Bool := decide (200 ≤ status) && decide (status < 300)

/-- The `try` body of `detectWithGoQRAPI` as an exception-transparent
computation: a rejected fetch and a JSON parse failure throw; a non-2xx
status throws (`Backend API request failed`); a well-formed body yields the
mapped `qr_codes` when `success` holds and the list is non-empty, `[]`
otherwise. -/
def detectWithGoQRAPIBody (o : FetchOutcome) : Except String (List QRCodeResult) :=
  match o with
  | FetchOutcome.networkError => Except.error "fetch rejected"
  | FetchOutcome.response status body =>
    if responseOk status then
      match body with
      | GoQRBody.malformed => Except.error "json parse failed"
      | GoQRBody.parsed success qrCodes =>
        if success && decide (0 < qrCodes.length) then Except.ok qrCodes
        else Except.ok []
    else Except.error "Backend API request failed"

/-- `detectWithGoQRAPI`: the `catch` absorbs every thrown error into `[]`. -/
def detectWithGoQRAPI (o : FetchOutcome) : List QRCodeResult :=
  match detectWithGoQRAPIBody o with
  | Except.ok l => l
  | Except.error _ => []

/-- A failed remote decode attempt: rejected fetch (timeout/network),
non-2xx status, or malformed response body. -/
def goQRFailure (o : FetchOutcome) : Bool :=
  match o with
  | FetchOutcome.networkError => true
  | FetchOutcome.response status body =>
    !responseOk status ||
      (match body with
       | GoQRBody.malformed => true
       | GoQRBody.parsed _ _ => false)

/-! ### Regex transcription helpers for `extractTextInfoEnhanced`

Each JS regex is transcribed as a positioned matcher `List Char → Option Nat`
returning the number of characters the (first, per the engine's backtracking
order) successful parse consumes at that position.  Greedy quantifiers whose
repeated class is disjoint from the following token are compiled without
backtracking; the quantifiers that do need it (`{2,3}`, `{7,8}`, `?` before a
digit class, the run before a suffix alternation) get explicit
longest-first alternation. -/

/-- Case-insensitive literal prefix match (JS `i` flag on a literal). -/
def ciPrefixList : List Char → List Char → Bool
  | [], _ => true
  | _ :: _, [] => false
  | p :: ps, c :: cs => asciiLower p = asciiLower c && ciPrefixList ps cs

/-- Leftmost-first search: try the positioned matcher at each index and
return the first matched slice, as JS `String.match` does. -/
def findFirstMatch (m : List Char → Option Nat) : List Char → Option (List Char)
  | [] => (m []).map (fun _ => ([] : List Char))
  | c :: cs =>
    match m (c :: cs) with
    | some n => some ((c :: cs).take n)
    | none => findFirstMatch m cs

/-- JS `\s+` (greedy; used where the next token is never whitespace). -/
def mWsPlus (l : List Char) : Option Nat :=
  let n := (l.takeWhile isJsSpace).length
  if n = 0 then none else some n

/-- Exactly `k` digits (`\d{k}` as one backtracking alternative). -/
def mDigitsExact (k : Nat) (l : List Char) : Option Nat :=
  if decide (k ≤ l.length) && (l.take k).all isDigitChar then some k else none

/-- `\d{7,8}`: greedy, longer alternative first. -/
def mDigits78 (l : List Char) : Option Nat := mDigitsExact 8 l <|> mDigitsExact 7 l

/-- `[\s\-]?\d{7,8}`: the greedy optional separator is tried consumed first. -/
def mSepDigits78 (l : List Char) : Option Nat :=
  match l with
  | c :: cs =>
    if isJsSpace c || c = '-' then ((mDigits78 cs).map (· + 1)) <|> mDigits78 l
    else mDigits78 l
  | [] => none

/-- `\d{2,3}[\s\-]?\d{7,8}`: greedy `{2,3}`, three digits tried first. -/
def mD23SepD78 (l : List Char) : Option Nat :=
  ((mDigitsExact 3 l).bind (fun _ => (mSepDigits78 (l.drop 3)).map (· + 3))) <|>
  ((mDigitsExact 2 l).bind (fun _ => (mSepDigits78 (l.drop 2)).map (· + 2)))

/-- `[\s\-]?\d{2,3}[\s\-]?\d{7,8}`. -/
def mSepD23SepD78 (l : List Char) : Option Nat :=
  match l with
  | c :: cs =>
    if isJsSpace c || c = '-' then ((mD23SepD78 cs).map (· + 1)) <|> mD23SepD78 l
    else mD23SepD78 l
  | [] => none

/-- `[6-9]\d{9}`. -/
def mC69D9 (l : List Char) : Option Nat :=
  match l with
  | c :: cs =>
    if ('6' ≤ c && c ≤ '9') && decide (9 ≤ cs.length) && (cs.take 9).all isDigitChar
    then some 10 else none
  | [] => none

/-- `[\s\-]?[6-9]\d{9}`. -/
def mSepC69D9 (l : List Char) : Option Nat :=
  match l with
  | c :: cs =>
    if isJsSpace c || c = '-' then ((mC69D9 cs).map (· + 1)) <|> mC69D9 l
    else mC69D9 l
  | [] => none

/-- Phone pattern 1, `\+?91[\s\-]?[6-9]\d{9}`.  The optional `+` is
deterministic: `+` cannot begin the `91` literal. -/
def matchPhone1At (l : List Char) : Option Nat :=
  let start := if isPrefixList ['+'] l then 1 else 0
  let l1 := l.drop start
  if isPrefixList "91".data l1 then (mSepC69D9 (l1.drop 2)).map (fun n => start + 2 + n)
  else none

/-- Phone pattern 2, `M\s*\+?91[\s\-]?[6-9]\d{9}` (case-sensitive `M`);
its tail is pattern 1. -/
def matchPhone2At (l : List Char) : Option Nat :=
  match l with
  | 'M' :: cs =>
    let ws := (cs.takeWhile isJsSpace).length
    (matchPhone1At (cs.drop ws)).map (fun n => 1 + ws + n)
  | _ => none

/-- Phone pattern 4, `\+?91[\s\-]?\d{2,3}[\s\-]?\d{7,8}` (also the tail of
pattern 3). -/
def matchPhone4At (l : List Char) : Option Nat :=
  let start := if isPrefixList ['+'] l then 1 else 0
  let l1 := l.drop start
  if isPrefixList "91".data l1 then (mSepD23SepD78 (l1.drop 2)).map (fun n => start + 2 + n)
  else none

/-- Phone pattern 3, `Tel[:\s]*\+?91[\s\-]?\d{2,3}[\s\-]?\d{7,8}` with the
`i` flag; the greedy `[:\s]*` is deterministic because the continuation
starts with `+` or `9`. -/
def matchPhone3At (l : List Char) : Option Nat :=
  if ciPrefixList "tel".data l then
    let l1 := l.drop 3
    let ws := (l1.takeWhile (fun c => c = ':' || isJsSpace c)).length
    (matchPhone4At (l1.drop ws)).map (fun n => 3 + ws + n)
  else none

/-- The cleanup `phone.replace(/^(Tel[:\s]*|M\s*)/i, '')`: the `Tel` branch
is tried first; each branch strips its greedy-maximal run. -/
def stripPhoneLabel (l : List Char) : List Char :=
  if ciPrefixList "tel".data l then
    l.drop (3 + ((l.drop 3).takeWhile (fun c => c = ':' || isJsSpace c)).length)
  else if ciPrefixList "m".data l then
    l.drop (1 + ((l.drop 1).takeWhile isJsSpace).length)
  else l

/-- `replace(/\s+/g, '')`: remove every whitespace character. -/
def removeAllWs (l : List Char) : List Char := l.filter (fun c => !isJsSpace c)

/-- The phone loop of `extractTextInfoEnhanced`: first pattern (in order)
whose first match, after label stripping and whitespace removal, still has
at least 10 characters; a matching pattern that cleans to fewer than 10
characters falls through to the next pattern. -/
def phoneLoop : List (List Char → Option Nat) → List Char → List Char
  | [], _ => []
  | p :: ps, cleaned =>
    match findFirstMatch p cleaned with
    | some m =>
      let phone := removeAllWs (stripPhoneLabel (trimList m))
      if 10 ≤ phone.length then phone else phoneLoop ps cleaned
    | none => phoneLoop ps cleaned

/-- The source's ordered `phonePatterns` array. -/
def phonePatterns : List (List Char → Option Nat) :=
  [matchPhone1At, matchPhone2At, matchPhone3At, matchPhone4At]

/-- The email local-part class `[a-zA-Z0-9._%+-]`. -/
def emailLocalChar (c : Char) : Bool :=
  isAsciiLetter c || isDigitChar c || c = '.' || c = '_' || c = '%' || c = '+' || c = '-'

/-- The email domain class `[a-zA-Z0-9.-]`. -/
def emailDomainChar (c : Char) : Bool :=
  isAsciiLetter c || isDigitChar c || c = '.' || c = '-'

/-- Backtracking over the domain run of the email pattern: the largest
`k ≥ 1` such that after `k` domain characters a `.` followed by at least two
letters appears (the `[a-zA-Z]{2,}` being greedy-maximal). -/
def emailDomBack (rest : List Char) : Nat → Option Nat
  | 0 => none
  | k + 1 =>
    (match rest.drop (k + 1) with
     | '.' :: r3 =>
       let t := (r3.takeWhile isAsciiLetter).length
       if 2 ≤ t then some (k + 1 + 1 + t) else none
     | _ => none) <|> emailDomBack rest k

/-- The email pattern `[a-zA-Z0-9._%+-]+@[a-zA-Z0-9.-]+\.[a-zA-Z]{2,}`.
The local run needs no backtracking because `@` is not in its class. -/
def matchEmailAt (l : List Char) : Option Nat :=
  let nLoc := (l.takeWhile emailLocalChar).length
  if nLoc = 0 then none
  else
    match l.drop nLoc with
    | '@' :: rest =>
      (emailDomBack rest (rest.takeWhile emailDomainChar).length).map (fun m => nLoc + 1 + m)
    | _ => none

/-- The website pattern `(https?:\/\/[^\s]+|www\.[^\s]+)` with the `i` flag;
the alternation is tried left to right and the greedy `s?` is deterministic
(`s` cannot begin `://`). -/
def matchWebsiteAt (l : List Char) : Option Nat :=
  (if ciPrefixList "http".data l then
     (if ciPrefixList "s://".data (l.drop 4) then some 8
      else if ciPrefixList "://".data (l.drop 4) then some 7
      else none).bind (fun n =>
        let m := ((l.drop n).takeWhile (fun c => !isJsSpace c)).length
        if m = 0 then none else some (n + m))
   else none) <|>
  (if ciPrefixList "www.".data l then
     let m := ((l.drop 4).takeWhile (fun c => !isJsSpace c)).length
     if m = 0 then none else some (4 + m)
   else none)

/-- `[A-Z][a-z]+`: a capitalized word (case-sensitive; greedy `[a-z]+`). -/
def mCapWord (l : List Char) : Option Nat :=
  match l with
  | c :: cs =>
    if isUpperAZ c then
      let n := (cs.takeWhile isLowerAZ).length
      if n = 0 then none else some (1 + n)
    else none
  | [] => none

/-- Name pattern 1, `^([A-Z][a-z]+\s+[A-Z][a-z]+(?:\s+[A-Z][a-z]+)?)`:
anchored at the start of the cleaned text; the optional third word is
greedy and final, so it is included exactly when it parses. -/
def matchName1 (l : List Char) : Option Nat :=
  (mCapWord l).bind (fun n1 =>
  (mWsPlus (l.drop n1)).bind (fun w1 =>
  (mCapWord (l.drop (n1 + w1))).map (fun n2 =>
    let base := n1 + w1 + n2
    match (mWsPlus (l.drop base)).bind (fun w2 =>
        (mCapWord (l.drop (base + w2))).map (fun n3 => w2 + n3)) with
    | some ext => base + ext
    | none => base)))

/-- Name pattern 2, `^([A-Z][a-z]+\s+[A-Z])`. -/
def matchName2 (l : List Char) : Option Nat :=
  (mCapWord l).bind (fun n1 =>
  (mWsPlus (l.drop n1)).bind (fun w1 =>
    match l.drop (n1 + w1) with
    | c :: _ => if isUpperAZ c then some (n1 + w1 + 1) else none
    | [] => none))

/-- The company/title keywords that disqualify a name candidate. -/
def nameKeywords : List (List Char) :=
  ["ltd".data, "inc".data, "corp".data, "analyst".data, "manager".data]

/-- The validation applied to a name candidate: none of the keywords occurs
in its lower-cased form and it is shorter than 50 characters. -/
def nameValid (m : List Char) : Bool :=
  (nameKeywords.all (fun kw => !containsList kw (m.map asciiLower))) &&
    decide (m.length < 50)

/-- The second iteration of the name loop (pattern 2). -/
def nameSecond (cleaned : List Char) : List Char :=
  match matchName2 cleaned with
  | some n => if nameValid (cleaned.take n) then cleaned.take n else []
  | none => []

/-- The name loop: pattern 1's match is taken if valid; an invalid or absent
match falls through to pattern 2; an invalid or absent second match leaves
the name empty. -/
def nameFromCleaned (cleaned : List Char) : List Char :=
  match matchName1 cleaned with
  | some n => if nameValid (cleaned.take n) then cleaned.take n else nameSecond cleaned
  | none => nameSecond cleaned

/-- A sequence of case-insensitive literal words separated by `\s+`
(the shape of every title alternative and of the Satyam company pattern). -/
def mWordsCi : List (List Char) → List Char → Option Nat
  | [], _ => some 0
  | [w], l => if ciPrefixList w l then some w.length else none
  | w :: ws, l =>
    if ciPrefixList w l then
      (mWsPlus (l.drop w.length)).bind (fun s =>
        (mWordsCi ws (l.drop (w.length + s))).map (fun n => w.length + s + n))
    else none

/-- Ordered alternation over word sequences (first alternative wins). -/
def mAltWords (alts : List (List (List Char))) (l : List Char) : Option Nat :=
  match alts with
  | [] => none
  | a :: rest => (mWordsCi a l) <|> mAltWords rest l

/-- The title alternation, in the source's order (`i` flag). -/
def titleAlternatives : List (List (List Char)) :=
  [["Systems".data, "Analyst".data], ["Project".data, "Manager".data],
   ["Software".data, "Engineer".data], ["Senior".data, "Developer".data],
   ["Team".data, "Lead".data], ["Director".data], ["Manager".data],
   ["Analyst".data], ["Engineer".data], ["Developer".data], ["Consultant".data],
   ["Specialist".data], ["Executive".data], ["President".data], ["CEO".data],
   ["CTO".data], ["VP".data], ["Designer".data], ["Coordinator".data],
   ["Assistant".data]]

/-- The title rule: trimmed first match of the alternation, empty if none. -/
def titleFromCleaned (cleaned : List Char) : List Char :=
  match findFirstMatch (mAltWords titleAlternatives) cleaned with
  | some m => trimList m
  | none => []

/-- Ordered alternation of case-insensitive literals. -/
def mAltLitCi (alts : List (List Char)) (l : List Char) : Option Nat :=
  match alts with
  | [] => none
  | a :: rest => (if ciPrefixList a l then some a.length else none) <|> mAltLitCi rest l

/-- Greedy `cls+` followed by `tail`, with proper longest-first backtracking
over the run length (at least one class character). -/
def mRunThenAltGo (tail : List Char → Option Nat) (l : List Char) : Nat → Option Nat
  | 0 => none
  | k + 1 => ((tail (l.drop (k + 1))).map (fun n => k + 1 + n)) <|> mRunThenAltGo tail l k

/-- Entry point for `cls+ tail`: start from the maximal run. -/
def mRunThenAlt (cls : Char → Bool) (tail : List Char → Option Nat) (l : List Char) :
    Option Nat :=
  mRunThenAltGo tail l (l.takeWhile cls).length

/-- The company suffix alternation, in the source's order (`i` flag). -/
def companySuffixes : List (List Char) :=
  ["Ltd".data, "Inc".data, "Corp".data, "Company".data, "Services".data,
   "Technologies".data, "Solutions".data, "Systems".data, "Computer".data,
   "Software".data, "Tech".data, "Group".data, "Holdings".data,
   "Enterprises".data, "Private".data, "Pvt".data]

/-- The inner class `[a-zA-Z\s&]` of company pattern 1. -/
def isCompanyInner (c : Char) : Bool := isAsciiLetter c || isJsSpace c || c = '&'

/-- Company pattern 1, `[A-Z][a-zA-Z\s&]+(?:Ltd|Inc|...)` with the `i` flag
(so the leading `[A-Z]` accepts any ASCII letter). -/
def matchCompany1At (l : List Char) : Option Nat :=
  match l with
  | c :: cs =>
    if isAsciiLetter c then
      (mRunThenAlt isCompanyInner (mAltLitCi companySuffixes) cs).map (fun n => 1 + n)
    else none
  | [] => none

/-- Company pattern 2, `Satyam\s+Computer\s+Services\s+Ltd` (`i` flag). -/
def matchSatyamAt (l : List Char) : Option Nat :=
  mWordsCi ["Satyam".data, "Computer".data, "Services".data, "Ltd".data] l

/-- The company loop: first pattern with any match wins (no validation). -/
def companyFromCleaned (cleaned : List Char) : List Char :=
  match findFirstMatch matchCompany1At cleaned with
  | some m => trimList m
  | none =>
    match findFirstMatch matchSatyamAt cleaned with
    | some m => trimList m
    | none => []

/-- The address suffix alternation `(?:Towers?|Building|...|Country)`
(`i` flag; `Towers?` keeps its greedy optional `s`). -/
def addressSuffixAlt (l : List Char) : Option Nat :=
  (if ciPrefixList "tower".data l then
     some (if ciPrefixList "s".data (l.drop 5) then 6 else 5)
   else none) <|>
  mAltLitCi ["Building".data, "Complex".data, "Road".data, "Street".data,
             "Avenue".data, "Lane".data, "Colony".data, "Nagar".data,
             "Area".data, "Village".data, "Town".data, "City".data,
             "State".data, "Country".data] l

/-- The inner class `[A-Za-z\s]` of address pattern 1. -/
def isAddrInner (c : Char) : Bool := isAsciiLetter c || isJsSpace c

/-- Address pattern 1, `[A-Za-z\s]+(?:Towers?|...|Country)` (`i` flag). -/
def matchAddress1At (l : List Char) : Option Nat :=
  mRunThenAlt isAddrInner addressSuffixAlt l

/-- Address pattern 2, `Ohri\s+Towers?[^,]*` (`i` flag); the optional `s`
and the final `[^,]*` are greedy and the match extends to the next comma. -/
def matchOhriAt (l : List Char) : Option Nat :=
  if ciPrefixList "ohri".data l then
    (mWsPlus (l.drop 4)).bind (fun w =>
      let l2 := l.drop (4 + w)
      if ciPrefixList "tower".data l2 then
        let s := if ciPrefixList "s".data (l2.drop 5) then 1 else 0
        let rest := ((l2.drop (5 + s)).takeWhile (fun c => c ≠ ',')).length
        some (4 + w + 5 + s + rest)
      else none)
  else none

/-- Address pattern 3, `Sebastian\s+Road[^,]*` (`i` flag). -/
def matchSebastianAt (l : List Char) : Option Nat :=
  if ciPrefixList "sebastian".data l then
    (mWsPlus (l.drop 9)).bind (fun w =>
      let l2 := l.drop (9 + w)
      if ciPrefixList "road".data l2 then
        let rest := ((l2.drop 4).takeWhile (fun c => c ≠ ',')).length
        some (9 + w + 4 + rest)
      else none)
  else none

/-- The scan of the global replace `replace(/\d{2,3}[\s\-]?\d{7,8}/g, '')`:
delete each leftmost match and continue scanning after it.  A match always
consumes at least nine characters, so dropping `n - 1` of the tail equals
dropping `n` of the whole list.  Structural recursion on a fuel argument
(every step consumes at least one character, so `l.length` fuel is enough
and the fuel-exhaustion branch is unreachable). -/
def stripPhoneShapesGo : Nat → List Char → List Char
  | 0, l => l
  | _ + 1, [] => []
  | fuel + 1, c :: cs =>
    match mD23SepD78 (c :: cs) with
    | some n => stripPhoneShapesGo fuel (cs.drop (n - 1))
    | none => c :: stripPhoneShapesGo fuel cs

/-- The global replace `address.replace(/\d{2,3}[\s\-]?\d{7,8}/g, '')`. -/
def stripPhoneShapes (l : List Char) : List Char := stripPhoneShapesGo l.length l

/-- The address loop: for each pattern in order, take the first match,
trim it, delete phone-shaped digit runs, re-collapse whitespace, and accept
it only if longer than 10 characters; otherwise fall through. -/
def addressLoop : List (List Char → Option Nat) → List Char → List Char
  | [], _ => []
  | p :: ps, cleaned =>
    match findFirstMatch p cleaned with
    | some m =>
      let address := trimList (collapseWsGo (stripPhoneShapes (trimList m)) false)
      if 10 < address.length then address else addressLoop ps cleaned
    | none => addressLoop ps cleaned

/-- The source's ordered `addressPatterns` array. -/
def addressPatterns : List (List Char → Option Nat) :=
  [matchAddress1At, matchOhriAt, matchSebastianAt]

/-- Word-boundary test against an optional preceding character. -/
def isNonWordOpt (oc : Option Char) : Bool :=
  match oc with
  | some c => !isWordChar c
  | none => true

/-- The pincode pattern `\b\d{6}\b`: first position (tracking the previous
character for the boundary) with exactly six digits delimited by non-word
characters or the ends of the text. -/
def findPincode (prev : Option Char) : List Char → Option (List Char)
  | [] => none
  | c :: cs =>
    if isNonWordOpt prev && isDigitChar c && decide (5 ≤ cs.length) &&
        (cs.take 5).all isDigitChar && isNonWordOpt (cs.drop 5).head? then
      some (c :: cs.take 5)
    else findPincode (some c) cs

/-- The extractor's output record (`info`). -/
structure ExtractedInfo where
  name : String
  title : String
  company : String
  phone : String
  email : String
  website : String
  address : String
  otherInfo : List String
deriving DecidableEq

/-- `extractTextInfoEnhanced`: clean the text (collapse whitespace runs,
trim), then run the email, phone, website, name, title, company, address and
pincode rules, each exactly as transcribed above; falsy input (the empty
string) returns the all-empty record. -/
def extractTextInfoEnhanced (text : String) : ExtractedInfo :=
  if text = "" then ⟨"", "", "", "", "", "", "", []⟩
  else
    let cleaned := cleanText text.data
    ⟨strOf (nameFromCleaned cleaned),
     strOf (titleFromCleaned cleaned),
     strOf (companyFromCleaned cleaned),
     strOf (phoneLoop phonePatterns cleaned),
     strOf ((findFirstMatch matchEmailAt cleaned).getD []),
     strOf ((findFirstMatch matchWebsiteAt cleaned).getD []),
     strOf (addressLoop addressPatterns cleaned),
     match findPincode none cleaned with
     | some m => ["Pincode: " ++ strOf m]
     | none => []⟩

/-! ### Fixtures and auxiliary predicates used by the verification -/

/-- The event `b` is only ever invoked after `a` in the trace `tr`: every
prefix of `tr` containing `b` already contains `a`. -/
def eventPreceded (a b : DetectEv) (tr : List DetectEv) : Prop :=
  ∀ p s, tr = p ++ s → b ∈ p → a ∈ p

/-- The spec's literal vCard example (it contains an email line). -/
def vcardEmailLit : String :=
  "BEGIN:VCARD\nFN:Jane Doe\nORG:Acme Ltd\nEMAIL:jane@acme.com\nEND:VCARD"

/-- A vCard payload without an `@`, so the email rule cannot fire. -/
def vcardNoEmailLit : String := "BEGIN:VCARD\nFN:Jane Doe\nORG:Acme Ltd\nEND:VCARD"

/-- The spec's extractor field-isolation input. -/
def c6Input : String := "M +91 9848806006 Tel: 91-40-55316666 Ohri Towers, Road No. 2, 500034"

/-- A 2×2 flat image; every preprocessed rendering of it differs from it. -/
def dupImg : ImageData :=
  ⟨2, 2, [⟨100, 0, 0, 0⟩, ⟨100, 0, 0, 0⟩, ⟨100, 0, 0, 0⟩, ⟨100, 0, 0, 0⟩]⟩

/-- A remote decode result used twice by the duplicate-returning oracle. -/
def dupResult : QRCodeResult := ⟨"X", "QRCODE", "goQR.me API (via backend)"⟩

/-- Decoders where only the remote decoder succeeds, on the original image
only, and returns the same payload twice. -/
def dupDecoders : Decoders :=
  ⟨fun _ => none, fun i => if i = dupImg then [dupResult, dupResult] else []⟩

/-- A 2×2 flat image for the cascade-ordering witness. -/
def c2Img : ImageData :=
  ⟨2, 2, [⟨50, 50, 50, 255⟩, ⟨50, 50, 50, 255⟩, ⟨50, 50, 50, 255⟩, ⟨50, 50, 50, 255⟩]⟩

/-- The local decode result for the cascade-ordering witness. -/
def c2Res : QRCodeResult := ⟨"Y", "QRCODE", "jsQR"⟩

/-- Decoders where the local decoder succeeds exactly on the first
preprocessed rendering and the remote decoder never succeeds. -/
def c2Decoders : Decoders :=
  ⟨fun i => if i = increaseContrast c2Img then some c2Res else none, fun _ => []⟩

/-- A 1×1 image whose only pixel has every byte equal to 100, so the frame's
global minimum and maximum pixel values coincide. -/
def flatImg : ImageData := ⟨1, 1, [⟨100, 100, 100, 100⟩]⟩

/-- Two decode results sharing the same `data`. -/
def wRes1 : QRCodeResult := ⟨"A", "QRCODE", "jsQR"⟩

/-- Second result with the same `data` as `wRes1` but another method. -/
def wRes2 : QRCodeResult := ⟨"A", "QRCODE", "goQR.me API (via backend)"⟩

/-! ### Helper lemmas -/

theorem isPrefixList_cons {p : Char} {ps l : List Char} :
    isPrefixList (p :: ps) l = true ↔ ∃ t, l = p :: t ∧ isPrefixList ps t = true := by
  cases l with
  | nil => simp [isPrefixList]
  | cons c cs =>
    constructor
    · intro h
      simp only [isPrefixList, Bool.and_eq_true, decide_eq_true_eq] at h
      obtain ⟨hpc, hrest⟩ := h
      subst hpc
      exact ⟨cs, rfl, hrest⟩
    · rintro ⟨t, ht, hrest⟩
      cases ht
      simp [isPrefixList, hrest]

theorem head_of_isPrefixList {pre l : List Char}
    (h : isPrefixList pre l = true) (hne : pre ≠ []) : l.head? = pre.head? := by
  cases pre with
  | nil => exact absurd rfl hne
  | cons p ps =>
    obtain ⟨t, ht, -⟩ := isPrefixList_cons.mp h
    subst ht
    rfl

theorem strStartsWith_false_of_head {s pre : String} {b : Char}
    (hhead : s.data.head? = some b) (h1 : pre.data ≠ [])
    (h2 : pre.data.head? ≠ some b) : strStartsWith s pre = false := by
  cases hs : strStartsWith s pre
  · rfl
  · exact absurd (hhead ▸ head_of_isPrefixList hs h1).symm h2

theorem isPrefixList_take (n : Nat) (l : List Char) :
    isPrefixList (l.take n) l = true := by
  induction l generalizing n with
  | nil => cases n <;> rfl
  | cons c cs ih =>
    cases n with
    | zero => rfl
    | succ m => simp [isPrefixList, ih]

/-! ### C9: the classifier is total and never yields `unknown` or `error` -/

/-- C9: for every input string, `parseQRContent` terminates with one of the
nine rule kinds (`text` being the catch-all), so its content type is never
`unknown` (the initial value) and never `error` (the catch branch). -/
theorem parseQRContent_kind_total (s : String) :
    ((parseQRContent s).content_type = "url" ∨ (parseQRContent s).content_type = "email" ∨
     (parseQRContent s).content_type = "phone" ∨ (parseQRContent s).content_type = "vcard" ∨
     (parseQRContent s).content_type = "wifi" ∨ (parseQRContent s).content_type = "sms" ∨
     (parseQRContent s).content_type = "linkedin" ∨
     (parseQRContent s).content_type = "social" ∨
     (parseQRContent s).content_type = "text") ∧
    (parseQRContent s).content_type ≠ "unknown" ∧
    (parseQRContent s).content_type ≠ "error" := by
  unfold parseQRContent
  repeat' split
  all_goals exact ⟨by simp, by simp, by simp⟩

/-! ### C5: the remote decoder wrapper absorbs every failure into `[]` -/

/-- C5: every failed remote decode attempt (rejected fetch / timeout,
non-2xx status, malformed body) makes `detectWithGoQRAPI` return the empty
list instead of propagating the exception. -/
theorem detectWithGoQRAPI_failure_empty (o : FetchOutcome)
    (h : goQRFailure o = true) : detectWithGoQRAPI o = [] := by
  cases o with
  | networkError => rfl
  | response status body =>
    unfold goQRFailure at h
    unfold detectWithGoQRAPI detectWithGoQRAPIBody
    cases hok : responseOk status with
    | false => simp [hok]
    | true =>
      simp only [hok, if_true]
      cases body with
      | malformed => rfl
      | parsed success qrCodes => simp [hok] at h

/-- C5 witness: a rejected fetch is a failure and yields `[]`. -/
theorem detectWithGoQRAPI_failure_empty_witness :
    goQRFailure FetchOutcome.networkError = true ∧
    detectWithGoQRAPI FetchOutcome.networkError = [] :=
  ⟨rfl, detectWithGoQRAPI_failure_empty FetchOutcome.networkError rfl⟩

/-! ### C10: the dimension-preserving transforms keep width, height, alpha -/

/-- C10: `increaseContrast`, `convertToGrayscale` and `applyThreshold` each
return an image with the input's width and height and leave every pixel's
alpha component unchanged. -/
theorem preprocess_preserves_dims_alpha (img : ImageData) :
    (increaseContrast img).width = img.width ∧
    (increaseContrast img).height = img.height ∧
    (increaseContrast img).data.map Pixel.a = img.data.map Pixel.a ∧
    (convertToGrayscale img).width = img.width ∧
    (convertToGrayscale img).height = img.height ∧
    (convertToGrayscale img).data.map Pixel.a = img.data.map Pixel.a ∧
    (applyThreshold img).width = img.width ∧
    (applyThreshold img).height = img.height ∧
    (applyThreshold img).data.map Pixel.a = img.data.map Pixel.a := by
  refine ⟨rfl, rfl, ?_, rfl, rfl, ?_, rfl, rfl, ?_⟩ <;>
    simp only [increaseContrast, convertToGrayscale, applyThreshold, List.map_map] <;> rfl

/-! ### C4: `increaseContrast` is not a global min/max contrast stretch -/

/-- C4 counterexample: a frame whose every byte equals 100 (so the global
minimum and maximum pixel values coincide) is NOT returned unchanged by
`increaseContrast` — the pixel value 100 maps to 86 under the fixed-factor
adjustment, refuting the claimed min/max stretch with flat-image identity. -/
theorem increaseContrast_not_minmax_stretch :
    flatImg.data.all (fun p =>
      p.r = 100 && p.g = 100 && p.b = 100 && p.a = 100) = true ∧
    increaseContrast flatImg ≠ flatImg ∧
    increaseContrast flatImg = ⟨1, 1, [⟨86, 86, 86, 100⟩]⟩ := by decide

/-- C4 (amended): `increaseContrast` applies a fixed-factor (1.5, centred at
128, clamped) per-pixel adjustment: each output pixel depends only on the
corresponding input pixel, never on the frame's global minimum or maximum,
and a degenerate flat frame is in general changed. -/
theorem increaseContrast_pointwise (a b : ImageData) (i : Nat)
    (h : a.data[i]? = b.data[i]?) :
    (increaseContrast a).data[i]? = (increaseContrast b).data[i]? := by
  simp only [increaseContrast, List.getElem?_map, h]

/-- C4 witness: the first pixel's output is the same in a flat frame and in
a frame with extremal other pixels (different global min/max). -/
theorem increaseContrast_pointwise_witness :
    (increaseContrast ⟨1, 1, [⟨100, 100, 100, 100⟩]⟩).data[0]? =
      (increaseContrast
        ⟨3, 1, [⟨100, 100, 100, 100⟩, ⟨0, 0, 0, 0⟩, ⟨255, 255, 255, 255⟩]⟩).data[0]? :=
  increaseContrast_pointwise ⟨1, 1, [⟨100, 100, 100, 100⟩]⟩
    ⟨3, 1, [⟨100, 100, 100, 100⟩, ⟨0, 0, 0, 0⟩, ⟨255, 255, 255, 255⟩]⟩ 0 (by decide)

/-! ### C6: extractor field isolation on the spec's literal input -/

/-- C6: on the literal input the extractor yields phone `+919848806006`
(no alphabetic label characters survive the cleanup) and address
`Ohri Towers` (which contains no digits at all, hence no phone-shaped digit
run). -/
theorem extract_field_isolation :
    (extractTextInfoEnhanced c6Input).phone = "+919848806006" ∧
    (extractTextInfoEnhanced c6Input).phone.data.all
      (fun c => !isAsciiLetter c) = true ∧
    (extractTextInfoEnhanced c6Input).address = "Ohri Towers" ∧
    (extractTextInfoEnhanced c6Input).address.data.all
      (fun c => !isDigitChar c) = true := by
  exact ⟨by decide, by decide, by decide, by decide⟩

/-! ### C1: vCard payloads and the rule order of `parseQRContent` -/

/-- C1 counterexample: the spec's literal vCard payload begins with
`BEGIN:VCARD`, yet `parseQRContent` classifies it as `email`, because the
email rule (`contains '@' and '.'`) is evaluated before the vCard rule. -/
theorem parseQRContent_vcard_counterexample :
    strStartsWith vcardEmailLit "BEGIN:VCARD" = true ∧
    (parseQRContent vcardEmailLit).content_type = "email" ∧
    (parseQRContent vcardEmailLit).content_type ≠ "vcard" ∧
    (parseQRContent vcardEmailLit).details = [("email", vcardEmailLit)] := by decide

/-- C1 (amended): a payload beginning with `BEGIN:VCARD` is classified as
`vcard` (with the vCard field mapping) provided it does not also satisfy the
earlier email rule, i.e. it does not contain both `@` and `.`; the url and
phone rules can never fire on such a payload. -/
theorem parseQRContent_vcard_amended (s : String)
    (hpre : strStartsWith s "BEGIN:VCARD" = true)
    (hemail : ¬(strContains s "@" = true ∧ strContains s "." = true)) :
    (parseQRContent s).content_type = "vcard" ∧
    (parseQRContent s).details = parseVCard s := by
  have hpre' : isPrefixList ('B' :: "EGIN:VCARD".data) s.data = true := hpre
  obtain ⟨t1, hd, -⟩ := isPrefixList_cons.mp hpre'
  have hhead : s.data.head? = some 'B' := by rw [hd]; rfl
  have hurl1 : strStartsWith s "http://" = false :=
    strStartsWith_false_of_head hhead (by decide) (by decide)
  have hurl2 : strStartsWith s "https://" = false :=
    strStartsWith_false_of_head hhead (by decide) (by decide)
  have hurl3 : strStartsWith s "www." = false :=
    strStartsWith_false_of_head hhead (by decide) (by decide)
  have hem : (strContains s "@" && strContains s ".") = false := by
    cases h1 : strContains s "@" <;> cases h2 : strContains s "." <;>
      simp_all
  have hphone : phoneRegexTest s = false := by
    unfold phoneRegexTest
    rw [hd]
    have hplus : isPrefixList ['+'] ('B' :: t1) = false := by
      simp [isPrefixList]
    rw [hplus]
    simp [List.all_cons, isPhoneClassChar, isDigitChar, isJsSpace]
  unfold parseQRContent
  rw [hurl1, hurl2, hurl3, hem, hphone, hpre]
  exact ⟨rfl, rfl⟩

/-- C1 witness: a vCard payload without an email line is classified `vcard`
with name and company extracted from its `FN` and `ORG` lines. -/
theorem parseQRContent_vcard_amended_witness :
    strStartsWith vcardNoEmailLit "BEGIN:VCARD" = true ∧
    (parseQRContent vcardNoEmailLit).content_type = "vcard" ∧
    (parseQRContent vcardNoEmailLit).details =
      [("name", "Jane Doe"), ("company", "Acme Ltd")] :=
  ⟨by decide,
   (parseQRContent_vcard_amended vcardNoEmailLit (by decide) (by decide)).1,
   by
    rw [(parseQRContent_vcard_amended vcardNoEmailLit (by decide) (by decide)).2]
    decide⟩

/-! ### C7: the phone rule of `parseQRContent` -/

/-- C7 counterexample: `1-2-3-4-5-` reaches the phone rule (no url prefix,
no `@`) and is classified `phone`, although after stripping the separator
characters (spaces, dashes, parentheses) only five characters remain —
the regex counts its ten characters with separators included. -/
theorem parseQRContent_phone_counterexample :
    (parseQRContent "1-2-3-4-5-").content_type = "phone" ∧
    ("1-2-3-4-5-".data.filter
      (fun c => !(isJsSpace c || c = '-' || c = '(' || c = ')'))).length = 5 := by decide

/-- C7 (amended): for a payload reaching the phone rule (no url prefix, not
both `@` and `.`), the classification is `phone` exactly when the payload
consists of an optional leading `+` followed by at least TEN characters
(separators included) drawn from digits, whitespace, dashes and
parentheses. -/
theorem phoneRegexTest_eq_of_plus {s : String} {t : List Char}
    (hd : s.data = '+' :: t) :
    phoneRegexTest s = (decide (10 ≤ t.length) && t.all isPhoneClassChar) := by
  unfold phoneRegexTest
  rw [hd]
  simp [isPrefixList]

theorem phoneRegexTest_eq_of_noplus {s : String}
    (hh : isPrefixList ['+'] s.data = false) :
    phoneRegexTest s = (decide (10 ≤ s.data.length) && s.data.all isPhoneClassChar) := by
  unfold phoneRegexTest
  rw [hh]
  simp

theorem parseQRContent_phone_rule (s : String)
    (hurl : (strStartsWith s "http://" || strStartsWith s "https://" ||
      strStartsWith s "www.") = false)
    (hemail : (strContains s "@" && strContains s ".") = false) :
    ((parseQRContent s).content_type = "phone" ↔
      ∃ t, (s.data = '+' :: t ∨ (s.data.head? ≠ some '+' ∧ s.data = t)) ∧
        10 ≤ t.length ∧ ∀ c ∈ t, isPhoneClassChar c = true) := by
  have hre : phoneRegexTest s = true ↔
      ∃ t, (s.data = '+' :: t ∨ (s.data.head? ≠ some '+' ∧ s.data = t)) ∧
        10 ≤ t.length ∧ ∀ c ∈ t, isPhoneClassChar c = true := by
    cases hplus : isPrefixList ['+'] s.data with
    | true =>
      obtain ⟨t0, hd0, -⟩ := isPrefixList_cons.mp hplus
      rw [phoneRegexTest_eq_of_plus hd0]
      simp only [Bool.and_eq_true, decide_eq_true_eq, List.all_eq_true]
      constructor
      · rintro ⟨hlen, hall⟩
        exact ⟨t0, Or.inl hd0, hlen, hall⟩
      · rintro ⟨t, ht, hlen, hall⟩
        rcases ht with ht | ⟨hh, ht⟩
        · have h2 : ('+' :: t0 : List Char) = '+' :: t := hd0.symm.trans ht
          injection h2 with h2a h2b
          subst h2b
          exact ⟨hlen, hall⟩
        · rw [hd0] at hh
          exact absurd rfl hh
    | false =>
      rw [phoneRegexTest_eq_of_noplus hplus]
      simp only [Bool.and_eq_true, decide_eq_true_eq, List.all_eq_true]
      constructor
      · rintro ⟨hlen, hall⟩
        refine ⟨s.data, Or.inr ⟨?_, rfl⟩, hlen, hall⟩
        intro hh
        cases hds : s.data with
        | nil => rw [hds] at hh; exact Option.noConfusion hh
        | cons c cs =>
          rw [hds] at hh
          have hc : c = '+' := Option.some.inj hh
          rw [hds, hc] at hplus
          simp [isPrefixList] at hplus
      · rintro ⟨t, ht, hlen, hall⟩
        rcases ht with ht | ⟨-, ht⟩
        · rw [ht] at hplus
          simp [isPrefixList] at hplus
        · exact ht ▸ ⟨hlen, hall⟩
  unfold parseQRContent
  rw [hurl, hemail]
  rw [← hre]
  cases hp : phoneRegexTest s with
  | true => simp
  | false =>
    simp only [Bool.false_eq_true, if_false]
    repeat' split
    all_goals simp

/-- C7 witness: `+919848806006` reaches the phone rule and is classified
`phone` via the amended characterization. -/
theorem parseQRContent_phone_rule_witness :
    (parseQRContent "+919848806006").content_type = "phone" :=
  (parseQRContent_phone_rule "+919848806006" (by decide) (by decide)).mpr
    ⟨"919848806006".data, Or.inl (by decide), by decide, by decide⟩

/-! ### C3: deduplication -/

theorem removeDuplicatesAux_cons_pos {seen : List String} {x : QRCodeResult}
    {t : List QRCodeResult} (hs : seen.contains x.data = true) :
    removeDuplicatesAux seen (x :: t) = removeDuplicatesAux seen t := by
  show (if seen.contains x.data then removeDuplicatesAux seen t
        else x :: removeDuplicatesAux (x.data :: seen) t) = _
  rw [hs]
  simp

theorem removeDuplicatesAux_cons_neg {seen : List String} {x : QRCodeResult}
    {t : List QRCodeResult} (hs : seen.contains x.data = false) :
    removeDuplicatesAux seen (x :: t) =
      x :: removeDuplicatesAux (x.data :: seen) t := by
  show (if seen.contains x.data then removeDuplicatesAux seen t
        else x :: removeDuplicatesAux (x.data :: seen) t) = _
  rw [hs]
  simp

theorem removeDuplicatesAux_countP (d : String) (rs : List QRCodeResult) :
    ∀ seen : List String,
      (removeDuplicatesAux seen rs).countP (fun r => r.data == d) =
        if seen.contains d then 0
        else if rs.any (fun r => r.data == d) then 1 else 0 := by
  induction rs with
  | nil =>
    intro seen
    simp [removeDuplicatesAux]
  | cons x t ih =>
    intro seen
    cases hs : seen.contains x.data with
    | true =>
      rw [removeDuplicatesAux_cons_pos hs, ih seen]
      cases hd : seen.contains d with
      | true => simp [hd]
      | false =>
        have hxd : (x.data == d) = false := by
          cases hq : x.data == d with
          | true =>
            have hxe : x.data = d := by simpa using hq
            rw [hxe] at hs
            rw [hs] at hd
            exact hd
          | false => rfl
        simp [List.any_cons, hxd, hd]
    | false =>
      rw [removeDuplicatesAux_cons_neg hs, List.countP_cons, ih (x.data :: seen)]
      cases hq : x.data == d with
      | true =>
        have hxd : x.data = d := by simpa using hq
        have hds : seen.contains d = false := hxd ▸ hs
        have hdn : d ∉ seen := by simpa using hds
        have hc : (x.data :: seen).contains d = true := by
          simp [List.contains_cons, hxd]
        simp only [hc, hds, hdn, List.any_cons, hq, if_true]
        simp [hxd]
      | false =>
        have hne : d ≠ x.data := by
          intro he
          rw [he, beq_self_eq_true] at hq
          simp at hq
        have hc : (x.data :: seen).contains d = seen.contains d := by
          simp [List.contains_cons, hne]
        simp [hc, List.any_cons, hq, hne]

theorem removeDuplicatesAux_mem_find (r : QRCodeResult) (rs : List QRCodeResult) :
    ∀ seen : List String,
      r ∈ removeDuplicatesAux seen rs →
      seen.contains r.data = false ∧
        rs.find? (fun x => x.data == r.data) = some r := by
  induction rs with
  | nil =>
    intro seen h
    simp [removeDuplicatesAux] at h
  | cons x t ih =>
    intro seen h
    cases hs : seen.contains x.data with
    | true =>
      rw [removeDuplicatesAux_cons_pos hs] at h
      obtain ⟨h1, h2⟩ := ih seen h
      refine ⟨h1, ?_⟩
      have hxr : (x.data == r.data) = false := by
        cases hq : x.data == r.data with
        | true =>
          have hxe : x.data = r.data := by simpa using hq
          rw [hxe] at hs
          rw [hs] at h1
          exact h1
        | false => rfl
      rw [List.find?_cons_of_neg, h2]
      simp [hxr]
    | false =>
      rw [removeDuplicatesAux_cons_neg hs] at h
      rcases List.mem_cons.mp h with h | h
      · subst h
        refine ⟨hs, ?_⟩
        rw [List.find?_cons_of_pos]
        exact beq_self_eq_true r.data
      · obtain ⟨h1, h2⟩ := ih (x.data :: seen) h
        have hrx : (r.data == x.data) = false := by
          cases hq : r.data == x.data with
          | true =>
            rw [List.contains_cons, hq] at h1
            simp at h1
          | false => rfl
        have h1' : seen.contains r.data = false := by
          rw [List.contains_cons, hrx] at h1
          simpa using h1
        refine ⟨h1', ?_⟩
        have hxr : (x.data == r.data) = false := by
          cases hq : x.data == r.data with
          | true =>
            have hxe : x.data = r.data := by simpa using hq
            rw [← hxe, beq_self_eq_true] at hrx
            simp at hrx
          | false => rfl
        rw [List.find?_cons_of_neg, h2]
        simp [hxr]

theorem removeDuplicatesAux_pairwise (rs : List QRCodeResult) :
    ∀ seen : List String,
      (removeDuplicatesAux seen rs).Pairwise (fun a b => a.data ≠ b.data) := by
  induction rs with
  | nil =>
    intro seen
    simp [removeDuplicatesAux]
  | cons x t ih =>
    intro seen
    cases hs : seen.contains x.data with
    | true =>
      rw [removeDuplicatesAux_cons_pos hs]
      exact ih seen
    | false =>
      rw [removeDuplicatesAux_cons_neg hs]
      refine List.Pairwise.cons ?_ (ih (x.data :: seen))
      intro y hy
      obtain ⟨h1, -⟩ := removeDuplicatesAux_mem_find y t (x.data :: seen) hy
      intro hxy
      rw [List.contains_cons, ← hxy, beq_self_eq_true] at h1
      simp at h1

theorem removeDuplicatesAux_self (l : List QRCodeResult) :
    ∀ seen : List String,
      (∀ r ∈ l, seen.contains r.data = false) →
      l.Pairwise (fun a b => a.data ≠ b.data) →
      removeDuplicatesAux seen l = l := by
  induction l with
  | nil =>
    intro seen _ _
    rfl
  | cons x t ih =>
    intro seen hseen hpw
    have hx : seen.contains x.data = false := hseen x (List.mem_cons_self x t)
    rw [removeDuplicatesAux_cons_neg hx]
    refine congrArg (x :: ·) ?_
    refine ih (x.data :: seen) ?_ ((List.pairwise_cons.mp hpw).2)
    intro r hr
    rw [List.contains_cons]
    have h1 : seen.contains r.data = false := hseen r (List.mem_cons_of_mem x hr)
    have h2 : x.data ≠ r.data := (List.pairwise_cons.mp hpw).1 r hr
    have h3 : (r.data == x.data) = false := by
      cases hq : r.data == x.data with
      | true =>
        have : r.data = x.data := by simpa using hq
        exact absurd this.symm h2
      | false => rfl
    rw [h3, h1]
    rfl

/-- C3 (amended): `removeDuplicates` keeps each distinct `data` exactly once,
retains the first-seen entry, and is idempotent; a detection run's returned
set contains no two entries with identical `data` EXCEPT on the Tier-2
early-return path, where the remote decoder's results on the original image
are returned without deduplication. -/
theorem removeDuplicates_spec (rs : List QRCodeResult) (d : String)
    (dec : Decoders) (img : ImageData) :
    ((removeDuplicates rs).countP (fun r => r.data == d) =
      if rs.any (fun r => r.data == d) then 1 else 0) ∧
    (∀ r ∈ removeDuplicates rs, rs.find? (fun x => x.data == r.data) = some r) ∧
    removeDuplicates (removeDuplicates rs) = removeDuplicates rs ∧
    ((detectQRCodes dec img).results.Pairwise (fun a b => a.data ≠ b.data) ∨
      (detectQRCodes dec img).results = dec.goQR img) := by
  refine ⟨?_, ?_, ?_, ?_⟩
  · have h := removeDuplicatesAux_countP d rs []
    simpa [removeDuplicates] using h
  · intro r hr
    exact (removeDuplicatesAux_mem_find r rs [] hr).2
  · exact removeDuplicatesAux_self (removeDuplicates rs) []
      (fun r _ => rfl) (removeDuplicatesAux_pairwise rs [])
  · unfold detectQRCodes
    split
    · split
      · split
        · exact Or.inl (removeDuplicatesAux_pairwise [] [])
        · exact Or.inr rfl
      · exact Or.inl (removeDuplicatesAux_pairwise _ [])
    · exact Or.inl (removeDuplicatesAux_pairwise _ [])

/-- C3 counterexample: with a remote decoder that answers only on the
original image and returns the same payload twice, the run takes the Tier-2
early return and the returned set contains two entries with identical
`data`. -/
theorem removeDuplicates_detect_counterexample :
    (detectQRCodes dupDecoders dupImg).results.map QRCodeResult.data = ["X", "X"] := by
  decide

/-- C3 witness: the deduplication properties applied to a concrete
duplicate-bearing list. -/
theorem removeDuplicates_spec_witness :
    ((removeDuplicates [wRes1, wRes2]).countP (fun r => r.data == "A") = 1) ∧
    ([wRes1, wRes2].find? (fun x => x.data == wRes1.data) = some wRes1) ∧
    removeDuplicates (removeDuplicates [wRes1, wRes2]) =
      removeDuplicates [wRes1, wRes2] := by
  have h := removeDuplicates_spec [wRes1, wRes2] "A" dupDecoders dupImg
  refine ⟨h.1.trans (by decide), ?_, h.2.2.1⟩
  exact h.2.1 wRes1 (by decide)

/-! ### C2: cascade ordering (local before remote, stop at first success) -/

theorem tier1Loop_cons (d : Decoders) (p : ImageData) (ps : List ImageData) (k : Nat) :
    tier1Loop d (p :: ps) k =
      match d.jsQR p with
      | some r => ([r], [DetectEv.localPre k])
      | none =>
        if d.goQR p = [] then
          ((tier1Loop d ps (k + 1)).1,
            DetectEv.localPre k :: DetectEv.remotePre k :: (tier1Loop d ps (k + 1)).2)
        else (d.goQR p, [DetectEv.localPre k, DetectEv.remotePre k]) := rfl

theorem tier1Loop_cons_some {d : Decoders} {p : ImageData} {r : QRCodeResult}
    (ps : List ImageData) (k : Nat) (h : d.jsQR p = some r) :
    tier1Loop d (p :: ps) k = ([r], [DetectEv.localPre k]) := by
  rw [tier1Loop_cons, h]

theorem tier1Loop_cons_none_hit {d : Decoders} {p : ImageData}
    (ps : List ImageData) (k : Nat) (h : d.jsQR p = none) (hg : d.goQR p ≠ []) :
    tier1Loop d (p :: ps) k =
      (d.goQR p, [DetectEv.localPre k, DetectEv.remotePre k]) := by
  rw [tier1Loop_cons, h]
  simp [hg]

theorem tier1Loop_cons_none_miss {d : Decoders} {p : ImageData}
    (ps : List ImageData) (k : Nat) (h : d.jsQR p = none) (hg : d.goQR p = []) :
    tier1Loop d (p :: ps) k =
      ((tier1Loop d ps (k + 1)).1,
        DetectEv.localPre k :: DetectEv.remotePre k :: (tier1Loop d ps (k + 1)).2) := by
  rw [tier1Loop_cons, h]
  simp [hg]

theorem eventPreceded_of_not_mem {a b : DetectEv} {tr : List DetectEv}
    (h : b ∉ tr) : eventPreceded a b tr := by
  intro p s hps hbp
  refine absurd ?_ h
  rw [hps]
  exact List.mem_append_left s hbp

theorem eventPreceded_cons_self (a b : DetectEv) (tr : List DetectEv) :
    eventPreceded a b (a :: tr) := by
  intro p s hps hbp
  cases p with
  | nil => simp at hbp
  | cons x p' =>
    have hps' : a :: tr = x :: (p' ++ s) := hps
    injection hps' with h1 _
    rw [← h1]
    exact List.mem_cons_self a p'

theorem eventPreceded_cons {a b x : DetectEv} {tr : List DetectEv}
    (hbx : b ≠ x) (h : eventPreceded a b tr) : eventPreceded a b (x :: tr) := by
  intro p s hps hbp
  cases p with
  | nil => simp at hbp
  | cons y p' =>
    have hps' : x :: tr = y :: (p' ++ s) := hps
    injection hps' with h1 h2
    rcases List.mem_cons.mp hbp with hby | hbp'
    · exact absurd (hby.trans h1.symm) hbx
    · exact List.mem_cons_of_mem y (h p' s h2 hbp')

theorem eventPreceded_append {a b : DetectEv} {u v : List DetectEv}
    (h : eventPreceded a b u) (hb : b ∉ v) : eventPreceded a b (u ++ v) := by
  intro p s hps hbp
  rcases List.append_eq_append_iff.mp hps.symm with ⟨p', hup, -⟩ | ⟨u', hpu, hvu⟩
  · exact h p p' hup hbp
  · subst hpu
    rcases List.mem_append.mp hbp with hbu | hbu'
    · have ha : a ∈ u := h u [] (by simp) hbu
      exact List.mem_append_left u' ha
    · refine absurd ?_ hb
      rw [hvu]
      exact List.mem_append_left s hbu'

theorem tier1Loop_before (d : Decoders) (ps : List ImageData) :
    ∀ k i, eventPreceded (DetectEv.localPre i) (DetectEv.remotePre i)
      (tier1Loop d ps k).2 := by
  induction ps with
  | nil =>
    intro k i
    exact eventPreceded_of_not_mem (by simp [tier1Loop])
  | cons p t ih =>
    intro k i
    cases hj : d.jsQR p with
    | some r =>
      rw [tier1Loop_cons_some t k hj]
      exact eventPreceded_of_not_mem (by simp)
    | none =>
      by_cases hg : d.goQR p = []
      · rw [tier1Loop_cons_none_miss t k hj hg]
        by_cases hik : i = k
        · subst hik
          exact eventPreceded_cons_self _ _ _
        · refine eventPreceded_cons (by simp) (eventPreceded_cons (by simp [hik]) (ih (k + 1) i))
      · rw [tier1Loop_cons_none_hit t k hj hg]
        by_cases hik : i = k
        · subst hik
          exact eventPreceded_cons_self _ _ _
        · exact eventPreceded_of_not_mem (by simp [hik])

theorem tier1Loop_stop (d : Decoders) (ps : List ImageData) :
    ∀ k i p, ps[i]? = some p →
      (d.jsQR p ≠ none ∨ d.goQR p ≠ []) →
      ∀ j, k + i < j →
        DetectEv.localPre j ∉ (tier1Loop d ps k).2 ∧
        DetectEv.remotePre j ∉ (tier1Loop d ps k).2 := by
  induction ps with
  | nil =>
    intro k i p hp
    simp at hp
  | cons q t ih =>
    intro k i p hp hsucc j hj
    cases i with
    | zero =>
      have hpq : q = p := by simpa using hp
      subst hpq
      cases hjq : d.jsQR q with
      | some r =>
        rw [tier1Loop_cons_some t k hjq]
        refine ⟨?_, by simp⟩
        simp
        omega
      | none =>
        by_cases hg : d.goQR q = []
        · rcases hsucc with h | h
          · exact absurd hjq h
          · exact absurd hg h
        · rw [tier1Loop_cons_none_hit t k hjq hg]
          constructor <;> simp <;> omega
    | succ i' =>
      have hp' : t[i']? = some p := by simpa using hp
      cases hjq : d.jsQR q with
      | some r =>
        rw [tier1Loop_cons_some t k hjq]
        refine ⟨?_, by simp⟩
        simp
        omega
      | none =>
        by_cases hg : d.goQR q = []
        · rw [tier1Loop_cons_none_miss t k hjq hg]
          have hj' : (k + 1) + i' < j := by omega
          obtain ⟨h1, h2⟩ := ih (k + 1) i' p hp' hsucc j hj'
          constructor
          · intro hmem
            rcases List.mem_cons.mp hmem with he | hmem
            · have : j = k := by simpa using he
              omega
            · rcases List.mem_cons.mp hmem with he | hmem
              · simp at he
              · exact h1 hmem
          · intro hmem
            rcases List.mem_cons.mp hmem with he | hmem
            · simp at he
            · rcases List.mem_cons.mp hmem with he | hmem
              · have : j = k := by simpa using he
                omega
              · exact h2 hmem
        · rw [tier1Loop_cons_none_hit t k hjq hg]
          constructor <;> simp <;> omega

/-- C2: in every detection run, jsQR runs on the original image first; the
remote decoder is invoked on a preprocessed image only after the local
decoder was invoked on that same image (and on the original image only
after the Tier-0 local attempt); and once some preprocessed image at level
`i` succeeds (locally or remotely), no decoder is invoked at any later
level `j > i`. -/
theorem detect_cascade_ordering (d : Decoders) (img : ImageData) :
    (detectQRCodes d img).trace.head? = some DetectEv.localOrig ∧
    (∀ i, eventPreceded (DetectEv.localPre i) (DetectEv.remotePre i)
      (detectQRCodes d img).trace) ∧
    eventPreceded DetectEv.localOrig DetectEv.remoteOrig (detectQRCodes d img).trace ∧
    (∀ i j p, (preprocessImage img)[i]? = some p →
      (d.jsQR p ≠ none ∨ d.goQR p ≠ []) → i < j →
      DetectEv.localPre j ∉ (detectQRCodes d img).trace ∧
      DetectEv.remotePre j ∉ (detectQRCodes d img).trace) := by
  have hstop := tier1Loop_stop d (preprocessImage img) 0
  have hbefore := tier1Loop_before d (preprocessImage img) 0
  unfold detectQRCodes
  split
  · split
    · have htrace : ∀ g : List QRCodeResult,
          (DetectOut.mk g (DetectEv.localOrig ::
            (tier1Loop d (preprocessImage img) 0).2 ++ [DetectEv.remoteOrig])).trace =
          DetectEv.localOrig ::
            ((tier1Loop d (preprocessImage img) 0).2 ++ [DetectEv.remoteOrig]) :=
        fun _ => rfl
      split
      all_goals
        refine ⟨rfl, fun i => ?_, eventPreceded_cons_self _ _ _,
          fun i j p hp hsucc hij => ⟨?_, ?_⟩⟩
      all_goals clear htrace
      · exact eventPreceded_cons (by simp)
          (eventPreceded_append (hbefore i) (by simp))
      · intro hmem
        rcases List.mem_cons.mp hmem with he | hmem
        · simp at he
        · rcases List.mem_append.mp hmem with hmem | hmem
          · exact (hstop i p hp hsucc j (by omega)).1 hmem
          · simp at hmem
      · intro hmem
        rcases List.mem_cons.mp hmem with he | hmem
        · simp at he
        · rcases List.mem_append.mp hmem with hmem | hmem
          · exact (hstop i p hp hsucc j (by omega)).2 hmem
          · simp at hmem
      · exact eventPreceded_cons (by simp)
          (eventPreceded_append (hbefore i) (by simp))
      · intro hmem
        rcases List.mem_cons.mp hmem with he | hmem
        · simp at he
        · rcases List.mem_append.mp hmem with hmem | hmem
          · exact (hstop i p hp hsucc j (by omega)).1 hmem
          · simp at hmem
      · intro hmem
        rcases List.mem_cons.mp hmem with he | hmem
        · simp at he
        · rcases List.mem_append.mp hmem with hmem | hmem
          · exact (hstop i p hp hsucc j (by omega)).2 hmem
          · simp at hmem
    · refine ⟨rfl, fun i => ?_, eventPreceded_cons_self _ _ _,
        fun i j p hp hsucc hij => ⟨?_, ?_⟩⟩
      · exact eventPreceded_cons (by simp) (hbefore i)
      · intro hmem
        rcases List.mem_cons.mp hmem with he | hmem
        · simp at he
        · exact (hstop i p hp hsucc j (by omega)).1 hmem
      · intro hmem
        rcases List.mem_cons.mp hmem with he | hmem
        · simp at he
        · exact (hstop i p hp hsucc j (by omega)).2 hmem
  · refine ⟨rfl, fun i => ?_, eventPreceded_cons_self _ _ _,
      fun i j p hp hsucc hij => ⟨?_, ?_⟩⟩
    · exact eventPreceded_cons (by simp) (eventPreceded_of_not_mem (by simp))
    · intro hmem
      simp at hmem
    · intro hmem
      simp at hmem

/-- C2 witness: with a local decoder that succeeds exactly on the first
preprocessed rendering, no decoder is invoked at level 1. -/
theorem detect_cascade_ordering_witness :
    DetectEv.localPre 1 ∉ (detectQRCodes c2Decoders c2Img).trace ∧
    DetectEv.remotePre 1 ∉ (detectQRCodes c2Decoders c2Img).trace :=
  (detect_cascade_ordering c2Decoders c2Img).2.2.2 0 1 (increaseContrast c2Img)
    (by decide) (Or.inl (by decide)) (by decide)

/-! ### C8: the name rule is anchored, not line-by-line -/

theorem nameFromCleaned_shape (cleaned : List Char) :
    nameFromCleaned cleaned = [] ∨
    (isPrefixList (nameFromCleaned cleaned) cleaned = true ∧
     nameValid (nameFromCleaned cleaned) = true) := by
  unfold nameFromCleaned nameSecond
  split
  · split
    · right
      exact ⟨isPrefixList_take _ _, by assumption⟩
    · split
      · split
        · right
          exact ⟨isPrefixList_take _ _, by assumption⟩
        · left
          rfl
      · left
        rfl
  · split
    · split
      · right
        exact ⟨isPrefixList_take _ _, by assumption⟩
      · left
        rfl
    · left
      rfl

/-- C8 counterexample: on `"Acme Ltd\nJane Doe"` the extractor's name is
`"Acme L"` — the anchored second pattern matching into the collapsed first
line — and not `"Jane Doe"`, the value a line-by-line scan with keyword
exclusion would produce (line 1 holds the keyword `ltd`, line 2 matches the
two-capitalized-word pattern). -/
theorem extract_name_counterexample :
    (extractTextInfoEnhanced "Acme Ltd\nJane Doe").name = "Acme L" ∧
    (extractTextInfoEnhanced "Acme Ltd\nJane Doe").name ≠ "Jane Doe" := by decide

/-- C8 (amended): the name is not found by a line-by-line scan — the
cleaning step collapses line breaks into spaces and both name patterns are
anchored at the start of the collapsed text.  Hence the name field is
always either empty or a validated prefix of the whitespace-collapsed
text: it contains none of the keywords ltd/inc/corp/analyst/manager
(case-insensitively) and is shorter than 50 characters. -/
theorem extract_name_anchored (text : String) :
    (extractTextInfoEnhanced text).name = "" ∨
    (isPrefixList (extractTextInfoEnhanced text).name.data (cleanText text.data) = true ∧
     containsList "ltd".data
       ((extractTextInfoEnhanced text).name.data.map asciiLower) = false ∧
     containsList "inc".data
       ((extractTextInfoEnhanced text).name.data.map asciiLower) = false ∧
     containsList "corp".data
       ((extractTextInfoEnhanced text).name.data.map asciiLower) = false ∧
     containsList "analyst".data
       ((extractTextInfoEnhanced text).name.data.map asciiLower) = false ∧
     containsList "manager".data
       ((extractTextInfoEnhanced text).name.data.map asciiLower) = false ∧
     (extractTextInfoEnhanced text).name.data.length < 50) := by
  by_cases ht : text = ""
  · left
    simp [extractTextInfoEnhanced, ht]
  · have hname : (extractTextInfoEnhanced text).name =
        strOf (nameFromCleaned (cleanText text.data)) := by
      simp [extractTextInfoEnhanced, ht]
    rcases nameFromCleaned_shape (cleanText text.data) with h | ⟨h1, h2⟩
    · left
      rw [hname, h]
      rfl
    · right
      have hdata : (extractTextInfoEnhanced text).name.data =
          nameFromCleaned (cleanText text.data) := by
        rw [hname]
        rfl
      rw [hdata]
      simp only [nameValid, nameKeywords, List.all_cons, List.all_nil,
        Bool.and_eq_true, Bool.not_eq_true', decide_eq_true_eq, and_true] at h2
      exact ⟨h1, h2.1.1, h2.1.2.1, h2.1.2.2.1, h2.1.2.2.2.1, h2.1.2.2.2.2, h2.2⟩
